import Mathlib

/-!
Verification development for the GIGO VS Code extension
(repository fielding/gigo).

The TypeScript sources are embedded shallowly:

* `src/llmService.ts` — `upscalePrompt`, `tryVscodeLm`, `callOpenAI`,
  `callAnthropic` become pure Lean functions.  Host/editor state that the
  code reads (available models, streamed chunks, HTTP responses,
  configuration values) is passed in explicitly as structure fields or
  parameters.  A thrown JavaScript exception is modelled as the `error`
  branch of `Except`; a `fetch` response is modelled by its `ok` flag,
  status and parsed JSON payload.
* `src/extension.ts` — `addToHistory`, `getHistory`, `executeUpscale`,
  `executeUpscaleClipboard`, `executeRestoreOriginal`, `performUpscale`.
  Functions with side effects are modelled as functions returning the
  ordered list of observable effects they perform; configuration reads
  (`getHistorySize`) and UI interactions (input boxes, notification
  actions) become parameters holding the value the host would return.

JavaScript string operations are modelled on `String.data`:
`jsTrim` models `String.prototype.trim` and `s == ""` models string
falsiness (for a JavaScript string, being falsy is exactly being empty).
-/

namespace Gigo

/-- Whitespace recognised by JavaScript `trim` (the code points that occur
in practice; the exotic Unicode space characters never matter here). -/
def isJsWhitespace (c : Char) : Bool :=
  c = ' ' || c = '\t' || c = '\n' || c = '\r' || c = '\x0b' || c = '\x0c'

/-- Model of JavaScript `String.prototype.trim`: drop leading and trailing
whitespace. -/
def jsTrim (s : String) : String :=
  ⟨((s.data.dropWhile isJsWhitespace).reverse.dropWhile isJsWhitespace).reverse⟩

/-- The `source` tag of a successful upscale
(`'vscode.lm' | 'openai' | 'anthropic'` in `llmService.ts`). -/
inductive Source where
  | vscodeLm
  | openai
  | anthropic
deriving DecidableEq, Repr

/-- `UpscaleResult` from `llmService.ts`: a tagged union with a success
variant carrying the text and its source, and a failure variant carrying
the error message. -/
inductive UpscaleResult where
  | success (text : String) (source : Source)
  | failure (error : String)
deriving DecidableEq, Repr

/-- The host-side state read by `tryVscodeLm`: availability of the
`vscode.lm` API, the two model queries, and the request primitive.
`sendRequest m msg` returns either a thrown-error message (this includes
the cancellation error thrown when the token fires) or the streamed list
of text chunks. -/
structure VscodeLmEnv where
  lmApiAvailable : Bool
  gpt4oModels : List String
  allModels : List String
  sendRequest : String → String → Except String (List String)

/-- Model selection in `tryVscodeLm`: prefer the `gpt-4o` family query,
fall back to the unfiltered query when it is empty. -/
def selectModels (env : VscodeLmEnv) : List String :=
  if env.gpt4oModels.isEmpty then env.allModels else env.gpt4oModels

/-- The single user-role message built by `tryVscodeLm`. -/
def lmUserMessage (systemPrompt input : String) : String :=
  systemPrompt ++ "\n\n---\n\nUser's prompt to upscale:\n" ++ input

/-- `tryVscodeLm` from `llmService.ts`: check API availability, select a
model (first of the selected list), send one message, accumulate the
streamed chunks, reject an all-whitespace accumulation, otherwise succeed
with the trimmed text tagged `vscode.lm`. -/
def tryVscodeLm (env : VscodeLmEnv) (input systemPrompt : String) : UpscaleResult :=
  if env.lmApiAvailable = false then
    .failure "vscode.lm API not available"
  else
    match selectModels env with
    | [] => .failure "No language models available via vscode.lm"
    | m :: _ =>
      match env.sendRequest m (lmUserMessage systemPrompt input) with
      | .error msg => .failure ( "vscode.lm error: " ++ msg)
      | .ok chunks =>
        if jsTrim (String.join chunks) == "" then
          .failure "Empty response from vscode.lm"
        else
          .success (jsTrim (String.join chunks)) .vscodeLm

/-- A `fetch` response as `callOpenAI` / `callAnthropic` observe it. -/
structure HttpResponse where
  ok : Bool
  status : Nat
  errorBody : String
deriving DecidableEq, Repr

/-- The parsed JSON body of an OpenAI chat-completions response:
`data.choices?.[0]?.message?.content`, `none` when any step of that
optional chain is absent. -/
structure OpenAIResponse where
  content : Option String
deriving DecidableEq, Repr

/-- `callOpenAI` from `llmService.ts`.  A non-ok status or a falsy
`content` (absent, or the empty string) throws, modelled by `Except.error`
with the thrown message; otherwise the trimmed content is returned as a
success tagged `openai`.  Note the falsiness check `!content` does not
reject whitespace-only content. -/
def callOpenAI (resp : HttpResponse) (data : OpenAIResponse) :
    Except String UpscaleResult :=
  if resp.ok = false then
    .error ( "HTTP " ++ toString resp.status ++ ": " ++ resp.errorBody)
  else
    match data.content with
    | none => .error "No content in OpenAI response"
    | some c =>
      if c == "" then .error "No content in OpenAI response"
      else .ok (.success (jsTrim c) .openai)

/-- One block of an Anthropic messages response
(`{ type: string; text?: string }`). -/
structure AnthropicBlock where
  type : String
  text : Option String
deriving DecidableEq, Repr

/-- The parsed JSON body of an Anthropic messages response:
`data.content` is an optional array of blocks. -/
structure AnthropicResponse where
  content : Option (List AnthropicBlock)
deriving DecidableEq, Repr

/-- `callAnthropic` from `llmService.ts`.  A non-ok status throws; the
first block of type `"text"` is looked up and `!textBlock?.text` (no such
block, absent `text`, or empty-string `text`) throws; otherwise the
trimmed text is returned as a success tagged `anthropic`.  As with
`callOpenAI`, whitespace-only text is not rejected. -/
def callAnthropic (resp : HttpResponse) (data : AnthropicResponse) :
    Except String UpscaleResult :=
  if resp.ok = false then
    .error ( "HTTP " ++ toString resp.status ++ ": " ++ resp.errorBody)
  else
    match (data.content.getD []).find? (fun blk => blk.type == "text") with
    | none => .error "No text content in Anthropic response"
    | some blk =>
      match blk.text with
      | none => .error "No text content in Anthropic response"
      | some t =>
        if t == "" then .error "No text content in Anthropic response"
        else .ok (.success (jsTrim t) .anthropic)

/-- Which provider layers an `upscalePrompt` invocation actually called,
in order: the `vscode.lm` attempt and the external-API attempt. -/
inductive Call where
  | host
  | extApi
deriving DecidableEq, Repr

/-- `upscalePrompt` from `llmService.ts`, instrumented with the list of
provider layers invoked.  The cancellation token is passed through to the
host-model client only; `upscalePrompt` itself never reads it.  If the
host attempt succeeds its result is returned at once; otherwise the
external client is invoked, and if both fail the two error messages are
concatenated, each prefixed by its source label. -/
def upscalePrompt (cancelRequested : Bool)
    (vscodeLmClient : Bool → UpscaleResult)
    (extApiClient : Unit → UpscaleResult) : UpscaleResult × List Call :=
  match vscodeLmClient cancelRequested with
  | .success t s => (.success t s, [.host])
  | .failure e1 =>
    match extApiClient () with
    | .success t s => (.success t s, [.host, .extApi])
    | .failure e2 =>
      (.failure ( "vscode.lm: " ++ e1 ++ "\nExternal API: " ++ e2),
       [.host, .extApi])

/-- `HistoryEntry` from `constants.ts`. -/
structure HistoryEntry where
  original : String
  upscaled : String
  timestamp : Nat
deriving DecidableEq, Repr

/-- `addToHistory` from `extension.ts`, as a pure transformation of the
persisted log.  The code re-reads the log (`getHistory`) and the maximum
size (`getHistorySize`, the `gigo.historySize` setting) on every call;
both reads are modelled as the `history` and `maxSize` parameters, so the
parameter value is by construction the configuration value at insert
time.  The new entry is unshifted to the front, then the array is
truncated to `maxSize` when it is longer. -/
def addToHistory (maxSize : Nat) (entry : HistoryEntry)
    (history : List HistoryEntry) : List HistoryEntry :=
  if (entry :: history).length > maxSize then (entry :: history).take maxSize
  else entry :: history

/-- Folding `addToHistory` over a list of entries, starting from the empty
log: the result of inserting the entries in order with a fixed configured
maximum size. -/
def insertAll (maxSize : Nat) (entries : List HistoryEntry) : List HistoryEntry :=
  entries.foldl (fun log e => addToHistory maxSize e log) []

/-- `addToHistory` with the configured size taken as the raw JavaScript
number it is (`config.get<number>` is not validated): assigning
`history.length = maxSize` throws a `RangeError` when `maxSize` is
negative, modelled by the `error` branch; for a non-negative size it
truncates.  The `error` string carries the fault the JavaScript runtime
would raise. -/
def addToHistoryJS (maxSize : Int) (entry : HistoryEntry)
    (history : List HistoryEntry) : Except String (List HistoryEntry) :=
  if ((entry :: history).length : Int) > maxSize then
    if maxSize < 0 then .error "RangeError: Invalid array length"
    else .ok ((entry :: history).take maxSize.toNat)
  else .ok (entry :: history)

/-- The routing outcome of the `gigo.upscalePrompt` command
(`executeUpscale`): use the selection, use text typed into the input box,
or abort.  The source contains no clipboard-based route in this command;
the clipboard workflow is the separate `gigo.upscaleClipboard` command. -/
inductive UpscaleRoute where
  | selectionRoute (inputText : String)
  | inputBoxRoute (inputText : String)
  | aborted
deriving DecidableEq, Repr

/-- The condition `selectedText && selectedText.trim().length > 0` of
`executeUpscale`; `selectedText` is `none` when no editor is active. -/
def upscaleHasSelection (selectedText : Option String) : Bool :=
  match selectedText with
  | none => false
  | some s => !(s == "") && !(jsTrim s == "")

/-- `executeUpscale` from `extension.ts`, the routing part: with a
non-empty (post-trim) selection the raw selection text is used and the
result will replace the selection; otherwise the input box is shown
(`userInput` is what the user typed, `none` when dismissed) and a
cancelled or whitespace-only entry aborts.  The clipboard is never read
by this command. -/
def executeUpscale (selectedText : Option String)
    (userInput : Option String) : UpscaleRoute :=
  if upscaleHasSelection selectedText then
    .selectionRoute (selectedText.getD "")
  else
    match userInput with
    | none => .aborted
    | some u =>
      if u == "" || jsTrim u == "" then .aborted
      else .inputBoxRoute u

/-- Routing outcome of the `gigo.upscaleClipboard` command. -/
inductive ClipboardRoute where
  | warnEmpty
  | proceed (inputText : String)
deriving DecidableEq, Repr

/-- `executeUpscaleClipboard` from `extension.ts`: warn when the clipboard
is empty or whitespace-only, otherwise upscale the raw clipboard text in
clipboard mode. -/
def executeUpscaleClipboard (clipboardText : String) : ClipboardRoute :=
  if clipboardText == "" || jsTrim clipboardText == "" then .warnEmpty
  else .proceed clipboardText

/-- The observable effects of the extension layer: history mutation,
editor edits, clipboard writes, and UI surfaces. -/
inductive Effect where
  | historyInsert (original upscaled : String)
  | editorReplace (text : String)
  | editorInsert (text : String)
  | clipboardWrite (text : String)
  | showError (message : String)
  | showInfo (message : String)
  | openDocument (content : String)
  | openSettingsUi
  | runRestoreCommand
deriving DecidableEq, Repr

/-- The display name of a source tag, as interpolated into the
information messages. -/
def sourceName : Source → String
  | .vscodeLm => "vscode.lm"
  | .openai => "openai"
  | .anthropic => "anthropic"

/-- `performUpscale` from `extension.ts`, as the ordered list of effects
it performs after the provider call resolves.  `result` is what
`upscalePrompt` returned; `cancelRequestedAfter` is the value of
`token.isCancellationRequested` checked immediately after it resolves;
`chosenAction` is the notification button the user later picks (if any).
A cancelled invocation returns before any effect.  On failure only an
error message (and optionally the settings UI) is shown.  On success the
history insertion happens first — with the raw input text and the
provider text unchanged — followed by the destination write for the
active mode and its follow-up dialogs. -/
def performUpscale (inputText : String)
    (hasEditorContext isClipboardMode : Bool)
    (result : UpscaleResult) (cancelRequestedAfter : Bool)
    (chosenAction : Option String) : List Effect :=
  if cancelRequestedAfter then []
  else
    match result with
    | .failure e =>
      .showError ( "GIGO: " ++ e) ::
        (if chosenAction = some "Open Settings" then [.openSettingsUi] else [])
    | .success upscaledText src =>
      .historyInsert inputText upscaledText ::
      (if hasEditorContext then
        .editorReplace upscaledText ::
        .showInfo ( "GIGO: Prompt upscaled via " ++ sourceName src) ::
        (if chosenAction = some "Restore Original" then [.runRestoreCommand]
         else [])
      else if isClipboardMode then
        .clipboardWrite upscaledText ::
        .showInfo ( "GIGO: Upscaled prompt written to clipboard (via " ++
            sourceName src ++ ")") ::
        (if chosenAction = some "View Original" then
          [.clipboardWrite inputText,
           .showInfo "GIGO: Original restored to clipboard"]
         else if chosenAction = some "View Both" then
          [.openDocument ( "# Original Prompt\n\n" ++ inputText ++
              "\n\n---\n\n# Upscaled Version\n\n" ++ upscaledText)]
         else [])
      else
        .clipboardWrite upscaledText ::
        .showInfo ( "GIGO: Upscaled prompt copied to clipboard (via " ++
            sourceName src ++ ")") ::
        (if chosenAction = some "View Full Text" then
          [.openDocument upscaledText]
         else []))

/-- `executeRestoreOriginal` from `extension.ts`, as its effect list.
`picked` is the index of the quick-pick item the user chose (`none` when
dismissed); indices always come from the displayed history list, so the
out-of-range lookup branch is unreachable and modelled as producing no
effect.  The chosen entry has its `original` text written to the active
destination: replacing a non-empty selection, inserting at the cursor, or
— with no editor — writing the clipboard with an optional side-by-side
view. -/
def executeRestoreOriginal (history : List HistoryEntry)
    (picked : Option Nat) (hasEditor hasNonEmptySelection : Bool)
    (chosenAction : Option String) : List Effect :=
  if history.isEmpty then [.showInfo "GIGO: No history available"]
  else
    match picked with
    | none => []
    | some index =>
      match history[index]? with
      | none => []
      | some entry =>
        if hasEditor && hasNonEmptySelection then
          [.editorReplace entry.original, .showInfo "GIGO: Original restored"]
        else if hasEditor then
          [.editorInsert entry.original,
           .showInfo "GIGO: Original inserted at cursor"]
        else
          .clipboardWrite entry.original ::
          .showInfo "GIGO: Original copied to clipboard (no editor open)" ::
          (if chosenAction = some "View Both" then
            [.openDocument ( "# Original Prompt\n\n" ++ entry.original ++
                "\n\n---\n\n# Upscaled Version\n\n" ++ entry.upscaled)]
           else [])

/-! ### Helper lemmas -/

/-- One insert is exactly: cons the entry, keep the first `maxSize`
entries.  When the log was already within bounds `take` keeps everything,
so only entries beyond index `maxSize - 1` are ever discarded. -/
theorem addToHistory_eq_take (N : Nat) (e : HistoryEntry)
    (log : List HistoryEntry) :
    addToHistory N e log = (e :: log).take N := by
  unfold addToHistory
  split
  · rfl
  · next h => rw [List.take_of_length_le (by omega)]

theorem addToHistory_length (N : Nat) (e : HistoryEntry)
    (log : List HistoryEntry) :
    (addToHistory N e log).length = min N (log.length + 1) := by
  rw [addToHistory_eq_take]
  simp [List.length_take]

theorem insertAll_append_one (N : Nat) (es : List HistoryEntry)
    (e : HistoryEntry) :
    insertAll N (es ++ [e]) = addToHistory N e (insertAll N es) := by
  simp [insertAll, List.foldl_append]

theorem insertAll_length (N : Nat) (es : List HistoryEntry) :
    (insertAll N es).length = min es.length N := by
  induction es using List.reverseRecOn with
  | nil => simp [insertAll]
  | append_singleton xs x ih =>
    rw [insertAll_append_one, addToHistory_length, ih]
    simp
    omega

theorem insertAll_head (N : Nat) (es : List HistoryEntry)
    (he : es ≠ []) (hN : 0 < N) :
    (insertAll N es).head? = es.getLast? := by
  induction es using List.reverseRecOn with
  | nil => cases he rfl
  | append_singleton xs x ih =>
    rw [insertAll_append_one, addToHistory_eq_take, List.getLast?_concat]
    obtain ⟨k, rfl⟩ : ∃ k, N = k + 1 := ⟨N - 1, by omega⟩
    rfl

/-- Shape of a `tryVscodeLm` success: it is always tagged `vscode.lm` and
its text is the trimmed concatenation of the streamed chunks returned by
the request on the first selected model. -/
theorem tryVscodeLm_success_shape (env : VscodeLmEnv) (inp sp t : String)
    (s : Source) (h : tryVscodeLm env inp sp = .success t s) :
    s = Source.vscodeLm ∧ ∃ m rest chunks,
      selectModels env = m :: rest ∧
      env.sendRequest m (lmUserMessage sp inp) = .ok chunks ∧
      t = jsTrim (String.join chunks) := by
  unfold tryVscodeLm at h
  split at h
  · simp at h
  · split at h
    · simp at h
    · next m rest hsel =>
      split at h
      · simp at h
      · next chunks hreq =>
        split at h
        · simp at h
        · injection h with ht hs
          exact ⟨hs.symm, m, rest, chunks, hsel, hreq, ht.symm⟩

/-- Shape of a `callOpenAI` success: tagged `openai`, with text the
trimmed extracted content, and the raw content was a non-empty string. -/
theorem callOpenAI_success_shape (resp : HttpResponse) (data : OpenAIResponse)
    (t : String) (s : Source)
    (h : callOpenAI resp data = .ok (.success t s)) :
    s = Source.openai ∧ ∃ c, data.content = some c ∧ (c == "") = false ∧
      t = jsTrim c := by
  unfold callOpenAI at h
  split at h
  · simp at h
  · split at h
    · simp at h
    · next c hc =>
      split at h
      · simp at h
      · next hne =>
        injection h with h
        injection h with ht hs
        exact ⟨hs.symm, c, hc, by simpa using hne, ht.symm⟩

/-- Shape of a `callAnthropic` success: tagged `anthropic`, with text the
trimmed `text` field of the first block of type `"text"`, and that raw
field was a non-empty string. -/
theorem callAnthropic_success_shape (resp : HttpResponse)
    (data : AnthropicResponse) (t : String) (s : Source)
    (h : callAnthropic resp data = .ok (.success t s)) :
    s = Source.anthropic ∧ ∃ blk x,
      (data.content.getD []).find? (fun b => b.type == "text") = some blk ∧
      blk.text = some x ∧ (x == "") = false ∧ t = jsTrim x := by
  unfold callAnthropic at h
  split at h
  · simp at h
  · split at h
    · simp at h
    · next blk hblk =>
      split at h
      · simp at h
      · next x hx =>
        split at h
        · simp at h
        · next hne =>
          injection h with h
          injection h with ht hs
          exact ⟨hs.symm, blk, x, hblk, hx, by simpa using hne, ht.symm⟩

/-! ### Claim theorems -/

/-- Claim C4: for every configured maximum size `N ≥ 0`, after `N + 1`
inserts into an empty History Store the log has length exactly `N` and
(whenever the log is non-empty, i.e. `N > 0`) its first element is the
most recently inserted entry; moreover after every single insert the
length is at most `N`, and an insert is exactly `take N` after placing
the new entry at index 0 — only entries beyond index `N - 1` are
discarded. -/
theorem history_insert_bounded_most_recent_first (N : Nat) :
    (∀ es : List HistoryEntry, es.length = N + 1 →
      (insertAll N es).length = N ∧
      (0 < N → (insertAll N es).head? = es.getLast?)) ∧
    (∀ (log : List HistoryEntry) (e : HistoryEntry),
      (addToHistory N e log).length ≤ N ∧
      addToHistory N e log = (e :: log).take N) := by
  refine ⟨fun es hlen => ⟨?_, fun hN => ?_⟩,
    fun log e => ⟨?_, addToHistory_eq_take N e log⟩⟩
  · rw [insertAll_length, hlen]
    omega
  · exact insertAll_head N es (by intro h; subst h; simp at hlen) hN
  · rw [addToHistory_length]
    omega

/-- Witness for C4 at `N = 2` and three concrete inserts. -/
theorem history_insert_bounded_most_recent_first_witness :
    (insertAll 2 [⟨ "a", "A", 0⟩, ⟨ "b", "B", 1⟩, ⟨ "c", "C", 2⟩]).length = 2 ∧
    (insertAll 2 [⟨ "a", "A", 0⟩, ⟨ "b", "B", 1⟩, ⟨ "c", "C", 2⟩]).head? =
      ([⟨ "a", "A", 0⟩, ⟨ "b", "B", 1⟩, ⟨ "c", "C", 2⟩] :
        List HistoryEntry).getLast? := by
  have h := (history_insert_bounded_most_recent_first 2).1
    [⟨ "a", "A", 0⟩, ⟨ "b", "B", 1⟩, ⟨ "c", "C", 2⟩] rfl
  exact ⟨h.1, h.2 (by omega)⟩

/-- Claim C8: after the configured maximum size changes to `M` with `M`
smaller than the current log length, one more insert yields a log of
length exactly `M`.  The size is read fresh on every insert: in the
embedding the `maxSize` argument is by construction the configuration
value read by `getHistorySize` at insert time, independent of the sizes
used to build `log`. -/
theorem insert_after_size_reduction (M : Nat) (log : List HistoryEntry)
    (e : HistoryEntry) (h : M < log.length) :
    (addToHistory M e log).length = M := by
  rw [addToHistory_length]
  omega

/-- Witness for C8: a log of length 2 built under a larger size, then one
insert with the size reduced to 1. -/
theorem insert_after_size_reduction_witness :
    1 < ([⟨ "a", "A", 0⟩, ⟨ "b", "B", 1⟩] : List HistoryEntry).length ∧
    (addToHistory 1 ⟨ "c", "C", 2⟩ [⟨ "a", "A", 0⟩, ⟨ "b", "B", 1⟩]).length = 1 :=
  ⟨by decide, insert_after_size_reduction 1 [⟨ "a", "A", 0⟩, ⟨ "b", "B", 1⟩]
    ⟨ "c", "C", 2⟩ (by decide)⟩

/-- Claim C10: with the configured size taken as the raw JavaScript
number, insertion is total exactly on non-negative sizes: for every
`maxSize ≥ 0` the truncation succeeds (the fault branch is unreachable
and the result agrees with the pure model), while a negative configured
size makes the insert fault with a `RangeError` instead of returning a
failure value. -/
theorem truncation_total_for_nonneg_size :
    (∀ (N : Nat) (e : HistoryEntry) (log : List HistoryEntry),
      addToHistoryJS (N : Int) e log = .ok (addToHistory N e log)) ∧
    (∀ (m : Int) (e : HistoryEntry) (log : List HistoryEntry), m < 0 →
      addToHistoryJS m e log = .error "RangeError: Invalid array length") := by
  constructor
  · intro N e log
    unfold addToHistoryJS addToHistory
    by_cases h : (e :: log).length > N
    · rw [if_pos (by exact_mod_cast h), if_neg (by omega), if_pos h]
      simp
    · rw [if_neg (by omega), if_neg h]
  · intro m e log hm
    unfold addToHistoryJS
    rw [if_pos (by omega), if_pos hm]

/-- Witness for C10: a concrete in-bounds insert and a concrete faulting
insert at size `-1`. -/
theorem truncation_total_for_nonneg_size_witness :
    addToHistoryJS ((2 : Nat) : Int) ⟨ "a", "A", 0⟩ [] =
      .ok (addToHistory 2 ⟨ "a", "A", 0⟩ []) ∧
    ((-1 : Int) < 0 ∧
      addToHistoryJS (-1) ⟨ "a", "A", 0⟩ [] =
        .error "RangeError: Invalid array length") :=
  ⟨truncation_total_for_nonneg_size.1 2 ⟨ "a", "A", 0⟩ [],
   by omega,
   truncation_total_for_nonneg_size.2 (-1) ⟨ "a", "A", 0⟩ [] (by omega)⟩

/-- Claim C5: within one `upscalePrompt` invocation the host-model client
is attempted strictly first (the call trace always starts with the host
attempt); when the host attempt succeeds, its result is returned
unchanged — tagged with the host source, since every `tryVscodeLm`
success is tagged `vscode.lm` — and the external client is never invoked;
when the host attempt fails and the external client succeeds, the
external success is returned (carrying its own source tag) and the
external client was invoked exactly once. -/
theorem upscale_priority_order (tok : Bool)
    (host : Bool → UpscaleResult) (ext : Unit → UpscaleResult) :
    (upscalePrompt tok host ext).2.head? = some Call.host ∧
    (∀ t s, host tok = .success t s →
      upscalePrompt tok host ext = (.success t s, [Call.host])) ∧
    (∀ e t s, host tok = .failure e → ext () = .success t s →
      upscalePrompt tok host ext =
        (.success t s, [Call.host, Call.extApi])) ∧
    (∀ env inp sp t s, tryVscodeLm env inp sp = .success t s →
      s = Source.vscodeLm) := by
  refine ⟨?_, ?_, ?_, ?_⟩
  · unfold upscalePrompt
    cases host tok with
    | success t s => rfl
    | failure e => cases ext () <;> rfl
  · intro t s h
    unfold upscalePrompt
    rw [h]
  · intro e t s h1 h2
    unfold upscalePrompt
    rw [h1, h2]
  · intro env inp sp t s h
    exact (tryVscodeLm_success_shape env inp sp t s h).1

/-- Witness for C5: a concrete host success that short-circuits, a
concrete host failure that falls back to a successful external client,
and a concrete `tryVscodeLm` environment whose success is tagged
`vscode.lm`. -/
theorem upscale_priority_order_witness :
    upscalePrompt false (fun _ => .success "gold" .vscodeLm)
      (fun _ => .failure "unused") =
        (.success "gold" .vscodeLm, [Call.host]) ∧
    upscalePrompt false (fun _ => .failure "down")
      (fun _ => .success "gold" .openai) =
        (.success "gold" .openai, [Call.host, Call.extApi]) ∧
    Source.vscodeLm = Source.vscodeLm := by
  have h := upscale_priority_order false
    (fun _ => UpscaleResult.success "gold" Source.vscodeLm)
    (fun _ => UpscaleResult.failure "unused")
  have h2 := upscale_priority_order false
    (fun _ => UpscaleResult.failure "down")
    (fun _ => UpscaleResult.success "gold" Source.openai)
  have h3 := upscale_priority_order false
    (fun _ => UpscaleResult.failure "x") (fun _ => UpscaleResult.failure "y")
  exact ⟨h.2.1 "gold" Source.vscodeLm rfl,
    h2.2.2.1 "down" "gold" Source.openai rfl rfl,
    h3.2.2.2 ⟨true, ["gpt-4o"], [], fun _ _ => .ok [" gold "]⟩
      "in" "sys" "gold" Source.vscodeLm rfl⟩

/-- Claim C6: when the host client fails with reason `a` and the external
client fails with reason `b`, `upscalePrompt` returns a single failure
whose message is the concatenation of both reasons, each preceded by its
source label, and hence contains both `a` and `b` as substrings. -/
theorem upscale_aggregates_both_failures (tok : Bool)
    (host : Bool → UpscaleResult) (ext : Unit → UpscaleResult)
    (a b : String) (h1 : host tok = .failure a) (h2 : ext () = .failure b) :
    (upscalePrompt tok host ext).1 =
      .failure ( "vscode.lm: " ++ a ++ "\nExternal API: " ++ b) ∧
    (∃ p q, "vscode.lm: " ++ a ++ "\nExternal API: " ++ b = p ++ a ++ q) ∧
    (∃ p q, "vscode.lm: " ++ a ++ "\nExternal API: " ++ b = p ++ b ++ q) := by
  refine ⟨?_, ⟨ "vscode.lm: ", "\nExternal API: " ++ b, ?_⟩,
    ⟨ "vscode.lm: " ++ a ++ "\nExternal API: ", "", ?_⟩⟩
  · unfold upscalePrompt
    rw [h1, h2]
  · rw [String.append_assoc]
  · rw [String.append_empty]

/-- Witness for C6 at reasons `"A"` and `"B"`. -/
theorem upscale_aggregates_both_failures_witness :
    (upscalePrompt false (fun _ => .failure "A")
      (fun _ => .failure "B")).1 =
        .failure ( "vscode.lm: " ++ "A" ++ "\nExternal API: " ++ "B") ∧
    ∃ p q, "vscode.lm: " ++ "A" ++ "\nExternal API: " ++ "B" =
      p ++ "A" ++ q := by
  have h := upscale_aggregates_both_failures false
    (fun _ => UpscaleResult.failure "A") (fun _ => UpscaleResult.failure "B")
    "A" "B" rfl rfl
  exact ⟨h.1, h.2.1⟩

/-- Claim C1, counterexample: cancellation has been requested (token
`true`) and the host attempt has failed with the cancellation error, yet
`upscalePrompt` still invokes the external client and returns its
success — not a cancellation failure.  The source contains no
cancellation check between the two attempts. -/
theorem upscale_cancelled_still_invokes_ext_cex :
    upscalePrompt true (fun _ => .failure "vscode.lm error: Canceled")
      (fun _ => .success "gold" .openai) =
      (.success "gold" .openai, [Call.host, Call.extApi]) := rfl

/-- Claim C1 (amended): whenever the host attempt fails — whether or not
the cancellation token has been requested — `upscalePrompt` always
invokes the external client; cancellation never short-circuits the
fallback inside `upscalePrompt` (the caller `performUpscale` is what
discards the result of a cancelled invocation). -/
theorem upscale_host_failure_always_falls_back (tok : Bool)
    (host : Bool → UpscaleResult) (ext : Unit → UpscaleResult)
    (e : String) (h : host tok = .failure e) :
    (upscalePrompt tok host ext).2 = [Call.host, Call.extApi] := by
  unfold upscalePrompt
  rw [h]
  cases ext () <;> rfl

/-- Witness for the amended C1 with the token requested. -/
theorem upscale_host_failure_always_falls_back_witness :
    (fun (_ : Bool) => UpscaleResult.failure "vscode.lm error: Canceled") true
      = UpscaleResult.failure "vscode.lm error: Canceled" ∧
    (upscalePrompt true (fun _ => .failure "vscode.lm error: Canceled")
      (fun _ => .failure "No API key configured. Set gigo.apiKey in settings.")).2
      = [Call.host, Call.extApi] :=
  ⟨rfl, upscale_host_failure_always_falls_back true
    (fun _ => .failure "vscode.lm error: Canceled")
    (fun _ => .failure "No API key configured. Set gigo.apiKey in settings.")
    "vscode.lm error: Canceled" rfl⟩

/-- Claim C7: an invocation whose cancellation token is signaled by the
time the provider call resolves performs no effect at all — in
particular no history insertion, no editor replacement and no clipboard
write — whatever the provider result, the active mode and any later
dialog choice. -/
theorem cancelled_upscale_has_no_effects (inputText : String)
    (hasEditorContext isClipboardMode : Bool) (result : UpscaleResult)
    (chosenAction : Option String) :
    performUpscale inputText hasEditorContext isClipboardMode result true
      chosenAction = [] := rfl

/-- Claim C2 (evaluation of the code at the failing input): the routing of
the `gigo.upscalePrompt` command depends only on the selection and on the
text typed into the input box — `executeUpscale` takes no clipboard input
at all — and whenever the selection is empty the manual input box is
shown, whatever the clipboard holds: the route is always the input-box
route of the typed text, or aborted.  At the scenario of the claim
(selection absent, clipboard non-empty) the decision is therefore manual
entry, not a clipboard round trip. -/
theorem executeUpscale_empty_selection_shows_input_box :
    upscaleHasSelection none = false ∧
    executeUpscale none (some "add tests") = .inputBoxRoute "add tests" ∧
    executeUpscale none none = .aborted ∧
    ∀ sel userInput t, executeUpscale sel userInput = .inputBoxRoute t →
      userInput = some t := by
  refine ⟨rfl, by decide, rfl, ?_⟩
  intro sel userInput t h
  unfold executeUpscale at h
  split at h
  · simp at h
  · split at h
    · simp at h
    · split at h
      · simp at h
      · injection h with h2
        rw [h2]

/-- Witness for the universal part of the C2 evaluation: at a concrete
empty-selection invocation the input-box route carries exactly the typed
text. -/
theorem executeUpscale_empty_selection_shows_input_box_witness :
    (some "typed" : Option String) = some "typed" :=
  executeUpscale_empty_selection_shows_input_box.2.2.2 none (some "typed")
    "typed" (by decide)

/-- Claim C3, counterexample: with an ok HTTP response whose extracted
content is the one-space string, both external clients return a success
whose text is empty after trimming — the falsiness check lets
whitespace-only content through, so empty-after-trim is not always a
failure. -/
theorem ext_client_whitespace_success_cex :
    callOpenAI ⟨true, 200, ""⟩ ⟨some " "⟩ = .ok (.success "" .openai) ∧
    callAnthropic ⟨true, 200, ""⟩ ⟨some [⟨ "text", some " "⟩]⟩ =
      .ok (.success "" .anthropic) := ⟨rfl, rfl⟩

/-- Claim C3 (amended): every success of the two external clients carries
the extracted content trimmed of surrounding whitespace, and the raw
extraction was a non-empty string; an absent extraction is a failure.
The clients do not, however, reject whitespace-only extractions, so a
success text may be empty after trimming (see the counterexample) — the
empty-after-trim check of the host-model client is not mirrored. -/
theorem ext_clients_trim_success_text (resp : HttpResponse)
    (dataO : OpenAIResponse) (dataA : AnthropicResponse)
    (t : String) (s : Source) :
    (callOpenAI resp dataO = .ok (.success t s) →
      s = Source.openai ∧ ∃ c, dataO.content = some c ∧
        (c == "") = false ∧ t = jsTrim c) ∧
    (dataO.content = none → resp.ok = true →
      callOpenAI resp dataO = .error "No content in OpenAI response") ∧
    (callAnthropic resp dataA = .ok (.success t s) →
      s = Source.anthropic ∧ ∃ blk x,
        (dataA.content.getD []).find? (fun b => b.type == "text") =
          some blk ∧
        blk.text = some x ∧ (x == "") = false ∧ t = jsTrim x) := by
  refine ⟨callOpenAI_success_shape resp dataO t s, ?_,
    callAnthropic_success_shape resp dataA t s⟩
  intro hc hok
  unfold callOpenAI
  rw [if_neg (by simp [hok]), hc]

/-- Witness for the amended C3: a success built from content with
surrounding whitespace, an absent-content failure, and the Anthropic
analogue. -/
theorem ext_clients_trim_success_text_witness :
    (Source.openai = Source.openai ∧ ∃ c,
      (OpenAIResponse.mk (some " x ")).content = some c ∧
      (c == "") = false ∧ "x" = jsTrim c) ∧
    callOpenAI ⟨true, 200, ""⟩ ⟨none⟩ =
      .error "No content in OpenAI response" ∧
    (Source.anthropic = Source.anthropic ∧ ∃ blk x,
      ((AnthropicResponse.mk (some [⟨ "text", some " z "⟩])).content.getD
        []).find? (fun b => b.type == "text") = some blk ∧
      blk.text = some x ∧ (x == "") = false ∧ "z" = jsTrim x) := by
  refine ⟨?_, ?_, ?_⟩
  · exact (ext_clients_trim_success_text ⟨true, 200, ""⟩ ⟨some " x "⟩
      ⟨none⟩ "x" Source.openai).1 rfl
  · exact (ext_clients_trim_success_text ⟨true, 200, ""⟩ ⟨none⟩
      ⟨none⟩ "x" Source.openai).2.1 rfl rfl
  · exact (ext_clients_trim_success_text ⟨true, 200, ""⟩ ⟨none⟩
      ⟨some [⟨ "text", some " z "⟩]⟩ "z" Source.anthropic).2.2 rfl

/-- Claim C9: the recorded history entry stores the captured input text
exactly as obtained and the provider output after trimming, and restore
writes the original back verbatim.  In order: the three capture paths
pass the raw selection, typed text and clipboard text unchanged into the
pipeline; on a successful, non-cancelled outcome the first effect of
`performUpscale` is the history insertion of exactly that raw input as
`original` and the provider text as `upscaled`; every provider success
text is the trimmed raw provider output; and `executeRestoreOriginal`
writes the chosen entry's `original` field, character for character, to
the active destination. -/
theorem history_records_raw_original_and_trimmed_output :
    (∀ sel u, upscaleHasSelection (some sel) = true →
      executeUpscale (some sel) u = .selectionRoute sel) ∧
    (∀ u : String, (u == "" || jsTrim u == "") = false →
      executeUpscale none (some u) = .inputBoxRoute u) ∧
    (∀ c : String, (c == "" || jsTrim c == "") = false →
      executeUpscaleClipboard c = .proceed c) ∧
    (∀ (input t : String) (src : Source) (act : Option String)
        (hec icm : Bool),
      (performUpscale input hec icm (.success t src) false act).head? =
        some (.historyInsert input t)) ∧
    (∀ env inp sp t s, tryVscodeLm env inp sp = .success t s →
      ∃ m rest chunks, selectModels env = m :: rest ∧
        env.sendRequest m (lmUserMessage sp inp) = .ok chunks ∧
        t = jsTrim (String.join chunks)) ∧
    (∀ resp d t s, callOpenAI resp d = .ok (.success t s) →
      ∃ c, d.content = some c ∧ t = jsTrim c) ∧
    (∀ resp d t s, callAnthropic resp d = .ok (.success t s) →
      ∃ blk x, (d.content.getD []).find? (fun b => b.type == "text") =
          some blk ∧ blk.text = some x ∧ t = jsTrim x) ∧
    (∀ (history : List HistoryEntry) (idx : Nat) (entry : HistoryEntry)
        (hasEd hasSel : Bool) (act : Option String),
      history[idx]? = some entry →
      (executeRestoreOriginal history (some idx) hasEd hasSel act).head? =
        some (if hasEd && hasSel then Effect.editorReplace entry.original
          else if hasEd then Effect.editorInsert entry.original
          else Effect.clipboardWrite entry.original)) := by
  refine ⟨?_, ?_, ?_, ?_, ?_, ?_, ?_, ?_⟩
  · intro sel u h
    simp [executeUpscale, h]
  · intro u h
    simp [executeUpscale, upscaleHasSelection, h]
  · intro c h
    simp [executeUpscaleClipboard, h]
  · intro input t src act hec icm
    rfl
  · intro env inp sp t s h
    exact (tryVscodeLm_success_shape env inp sp t s h).2
  · intro resp d t s h
    obtain ⟨-, c, hc, -, ht⟩ := callOpenAI_success_shape resp d t s h
    exact ⟨c, hc, ht⟩
  · intro resp d t s h
    obtain ⟨-, blk, x, hfind, hx, -, ht⟩ :=
      callAnthropic_success_shape resp d t s h
    exact ⟨blk, x, hfind, hx, ht⟩
  · intro history idx entry hasEd hasSel act h
    match history with
    | [] => simp at h
    | hd :: tl =>
      cases hasEd <;> cases hasSel <;>
        simp [executeRestoreOriginal, h]

/-- Witness for C9 with concrete raw texts carrying surrounding
whitespace, one concrete environment per provider, and a concrete
restore. -/
theorem history_records_raw_original_and_trimmed_output_witness :
    executeUpscale (some "fix bug ") none = .selectionRoute "fix bug " ∧
    executeUpscale none (some " add tests") = .inputBoxRoute " add tests" ∧
    executeUpscaleClipboard " refactor this " = .proceed " refactor this " ∧
    (performUpscale "yo fix this api" true false
      (.success "Investigate the API issue." .vscodeLm) false none).head? =
        some (.historyInsert "yo fix this api" "Investigate the API issue.") ∧
    (∃ m rest chunks,
      selectModels ⟨true, ["m1"], [], fun _ _ => .ok [" raw "]⟩ = m :: rest ∧
      VscodeLmEnv.sendRequest ⟨true, ["m1"], [], fun _ _ => .ok [" raw "]⟩ m
        (lmUserMessage "s" "i") = .ok chunks ∧
      "raw" = jsTrim (String.join chunks)) ∧
    (∃ c, (OpenAIResponse.mk (some " raw ")).content = some c ∧
      "raw" = jsTrim c) ∧
    (∀ e : HistoryEntry, e ∈ ([⟨ "orig ", "up", 0⟩] : List HistoryEntry) →
      e = ⟨ "orig ", "up", 0⟩) ∧
    (executeRestoreOriginal [⟨ "orig ", "up", 0⟩] (some 0) true true
      none).head? =
        some (if true && true then Effect.editorReplace "orig "
          else if true then Effect.editorInsert "orig "
          else Effect.clipboardWrite "orig ") := by
  refine ⟨?_, ?_, ?_, ?_, ?_, ?_, ?_, ?_⟩
  · exact history_records_raw_original_and_trimmed_output.1 "fix bug " none
      (by decide)
  · exact history_records_raw_original_and_trimmed_output.2.1 " add tests"
      (by decide)
  · exact history_records_raw_original_and_trimmed_output.2.2.1
      " refactor this " (by decide)
  · exact history_records_raw_original_and_trimmed_output.2.2.2.1
      "yo fix this api" "Investigate the API issue." Source.vscodeLm none
      true false
  · exact history_records_raw_original_and_trimmed_output.2.2.2.2.1
      ⟨true, ["m1"], [], fun _ _ => .ok [" raw "]⟩ "i" "s" "raw"
      Source.vscodeLm rfl
  · exact history_records_raw_original_and_trimmed_output.2.2.2.2.2.1
      ⟨true, 200, ""⟩ ⟨some " raw "⟩ "raw" Source.openai rfl
  · intro e he
    simpa using he
  · exact history_records_raw_original_and_trimmed_output.2.2.2.2.2.2.2
      [⟨ "orig ", "up", 0⟩] 0 ⟨ "orig ", "up", 0⟩ true true none rfl

end Gigo
